import Mathlib

/-!
Verification development for the hub-robot-http-utils HTTP server
(`src/http_server.h` together with the server implementation translation
units).  The serving pipeline of `HttpServer` — incremental request
parsing, request construction, CORS preflight, the middleware chain,
route resolution, response finalization and the per-tick connection
treatment — is shallowly embedded below, and the stated properties are
settled against that embedding.

Conventions of the embedding:
* wire bytes are modelled as `Char` (every scrutinised request is ASCII;
  `'\x00'` stands for the NUL byte);
* `Arduino String` values are Lean `String`s, with the handful of
  `String` operations the code uses (`toLowerCase`, `endsWith`,
  `remove`, `substring`, `startsWith`, `indexOf`) implemented over the
  underlying character list so that every definition evaluates inside
  the kernel;
* `std::map<String,String>` is an association list with insert-or-assign
  `set` and first-match lookup; the claims under study depend only on
  lookup/containment, not on `std::map`'s sorted iteration order;
* handlers, middlewares and hooks are Lean functions of the same shape
  as the `std::function` typedefs in `http_server.h`.
-/

set_option maxRecDepth 40000

namespace HubHttp

/-- Wire bytes are modelled as characters; `'\x00'` is the NUL byte. -/
abbrev Byte := Char

/-- Association-list model of `std::map<String, α>` (keys unique when the
map is only built with `setA`). -/
abbrev AList (α : Type) := List (String × α)

/-- Insert-or-assign, the effect of `m[k] = v` on a `std::map`. -/
def setA {α : Type} : AList α → String → α → AList α
  | [], k, v => [(k, v)]
  | (k', v') :: rest, k, v =>
    if k' == k then (k, v) :: rest else (k', v') :: setA rest k v

/-- Lookup, the effect of `m.find(k)` on a `std::map`. -/
def getA {α : Type} : AList α → String → Option α
  | [], _ => none
  | (k', v') :: rest, k => if k' == k then some v' else getA rest k

/-- Containment, the effect of `m.count(k)` (0/1 valued on `std::map`). -/
def hasA {α : Type} : AList α → String → Bool
  | [], _ => false
  | (k', _) :: rest, k => k' == k || hasA rest k

/-- String-valued maps (headers, query, params, default headers). -/
abbrev SMap := AList String

theorem getA_setA_self {α : Type} (m : AList α) (k : String) (v : α) :
    getA (setA m k v) k = some v := by
  induction m with
  | nil => simp [setA, getA]
  | cons p rest ih =>
    rcases p with ⟨k', v'⟩
    by_cases h : k' = k
    · simp [setA, getA, h]
    · simp [setA, getA, h, ih]

theorem getA_setA_ne {α : Type} (m : AList α) (k k' : String) (v : α)
    (h : k ≠ k') : getA (setA m k v) k' = getA m k' := by
  induction m with
  | nil => simp [setA, getA, h]
  | cons p rest ih =>
    rcases p with ⟨k₁, v₁⟩
    by_cases h₁ : k₁ = k
    · subst h₁
      simp [setA, getA, h]
    · by_cases h₂ : k₁ = k'
      · subst h₂
        simp [setA, getA, Ne.symm h, h₁]
      · simp [setA, getA, h₁, h₂, ih]

-- ===========================================================================
-- Arduino `String` operations used by the server, over the character list
-- ===========================================================================

/-- Arduino `String::toLowerCase` (ASCII lowering, as `Char.toLower`). -/
def lowerStr (s : String) : String := String.mk (s.data.map Char.toLower)

/-- Arduino `String::equalsIgnoreCase`. -/
def eqIgnoreCase (a b : String) : Bool := lowerStr a == lowerStr b

/-- Test used at both trailing-slash-normalization sites
(`req.path.length() > 1 && req.path.endsWith("/")`), with the removal
`remove(length()-1)` applied when it holds: one trailing `'/'` is
stripped unless the path is a single character (in particular `"/"`). -/
def stripSlash (p : String) : String :=
  if p.data.length > 1 ∧ p.data.getLast? = some '/' then
    String.mk p.data.dropLast
  else p

/-- Segment splitting loop shared by `HttpServer::on(method, path, …)`
and `HttpServer::matchPattern`: walk the path, cutting at `'/'` and
keeping only non-empty segments. -/
def segsOfAux : List Byte → List Byte → List String
  | [], acc => if acc.isEmpty then [] else [String.mk acc.reverse]
  | c :: rest, acc =>
    if c = '/' then
      if acc.isEmpty then segsOfAux rest []
      else String.mk acc.reverse :: segsOfAux rest []
    else segsOfAux rest (c :: acc)

/-- Segments of a path string (empty segments dropped, as in the source
loops). -/
def segsOf (s : String) : List String := segsOfAux s.data []

/-- Arduino `String::startsWith(":")` on a segment. -/
def isParamSeg (s : String) : Bool :=
  match s.data with
  | ':' :: _ => true
  | _ => false

/-- Arduino `String::substring(1)`: the parameter name after the colon. -/
def paramName (s : String) : String := String.mk (s.data.drop 1)

/-- Arduino `String::toInt` as used by the `/log` built-in: parse a
leading decimal integer, yielding 0 when the text does not start with
digits. -/
def arduinoToInt (s : String) : Nat :=
  (s.data.takeWhile (fun c => c.isDigit)).foldl
    (fun n c => n * 10 + (c.toNat - 48)) 0

-- ===========================================================================
-- Request-head parsing (the bundled PicoHTTPParser is not under src/)
-- ===========================================================================

/-- Index of the first occurrence of the header terminator CRLFCRLF. -/
def findTerm : List Byte → Option Nat
  | [] => none
  | c :: rest =>
    if (c :: rest).take 4 = ['\r', '\n', '\r', '\n'] then some 0
    else (findTerm rest).map (· + 1)

/-- Split on single-character separators (used for CRLF handling the
separator is two characters, see `splitLines`). -/
def splitCharAux (sep : Byte) : List Byte → List Byte → List (List Byte)
  | [], acc => [acc.reverse]
  | c :: rest, acc =>
    if c = sep then acc.reverse :: splitCharAux sep rest []
    else splitCharAux sep rest (c :: acc)

/-- Split a byte list at every occurrence of `sep`, keeping empty parts. -/
def splitChar (sep : Byte) (l : List Byte) : List (List Byte) :=
  splitCharAux sep l []

/-- Split the header block into its lines at every CRLF. -/
def splitLinesAux : List Byte → List Byte → List (List Byte)
  | [], acc => [acc.reverse]
  | '\r' :: '\n' :: rest, acc => acc.reverse :: splitLinesAux rest []
  | c :: rest, acc => splitLinesAux rest (c :: acc)

/-- Lines of the header block (the bytes before the CRLFCRLF terminator). -/
def splitLines (l : List Byte) : List (List Byte) := splitLinesAux l []

/-- Index of the first occurrence of a single byte. -/
def findByte (b : Byte) : List Byte → Option Nat
  | [] => none
  | c :: rest => if c = b then some 0 else (findByte b rest).map (· + 1)

/-- Parse of one `Name: value` header line: name up to the first colon,
value with leading blanks dropped. -/
def parseHeaderLine (l : List Byte) : Option (String × String) :=
  match findByte ':' l with
  | none => none
  | some i =>
    if i = 0 then none
    else some (String.mk (l.take i),
      String.mk ((l.drop (i + 1)).dropWhile (fun c => c = ' ')))

/-- Parse of every header line; fails when one line is not a header. -/
def parseHeaderLines : List (List Byte) → Option (List (String × String))
  | [] => some []
  | l :: rest =>
    match parseHeaderLine l, parseHeaderLines rest with
    | some h, some hs => some (h :: hs)
    | _, _ => none

/-- Version token check for the request line: `HTTP/1.` followed by one
digit. -/
def versionOk (v : List Byte) : Bool :=
  match v with
  | ['H', 'T', 'T', 'P', '/', '1', '.', d] => d.isDigit
  | _ => false

/-- Result of a head parse: the byte offset one past the CRLFCRLF
terminator, the request-line method and path tokens, and the header
name/value pairs in order. -/
structure ParsedHead where
  headerEnd : Nat
  method : String
  path : String
  headers : List (String × String)
deriving DecidableEq, Repr

/-- Outcome of `phr_parse_request` on the bytes accumulated so far. -/
inductive ParseOut where
  | complete (ph : ParsedHead)
  | incomplete
  | malformed
deriving DecidableEq, Repr

/-- Parse of the request line and header lines of the head block. -/
def parseHead (headBytes : List Byte) (headerEnd : Nat) : ParseOut :=
  match splitLines headBytes with
  | [] => .malformed
  | reqLine :: headerLs =>
    match splitChar ' ' reqLine with
    | [m, p, v] =>
      if m ≠ [] ∧ p ≠ [] ∧ versionOk v then
        match parseHeaderLines headerLs with
        | some hs =>
          .complete { headerEnd := headerEnd, method := String.mk m,
                      path := String.mk p, headers := hs }
        | none => .malformed
      else .malformed
    | _ => .malformed

/-- Modelled from the spec: the repository bundles PicoHTTPParser but its
sources are not under src/, so `phr_parse_request` is modelled from the
spec's wire-protocol contract — "standard HTTP/1.1 request framing —
request line, headers terminated by a blank line"; the parse is complete
exactly when the CRLFCRLF terminator has arrived, returning the
header-end offset, method, path and header list, incomplete while the
terminator is still missing, and malformed when the head does not parse
as a request line plus header lines. -/
def phrParseRequest (buf : List Byte) : ParseOut :=
  match findTerm buf with
  | none => .incomplete
  | some i => parseHead (buf.take i) (i + 4)

-- ===========================================================================
-- Incremental read/parse loop of `HttpServer::handleConnection`
-- ===========================================================================

/-- `HttpServer::DEFAULT_BUFFER_SIZE`. -/
def DEFAULT_BUFFER_SIZE : Nat := 2048

/-- `HttpServer::MAX_BUFFER_SIZE`. -/
def MAX_BUFFER_SIZE : Nat := 8192

/-- Result of the `while (parse_result <= 0)` read loop in
`HttpServer::handleConnection`: the 413 path, the read-failure path
(`read` returned -1 or 0, handled by returning `false` with no
response), the 400 path, or completion with the accumulated buffer, the
buffer's allocated size, the parsed head and the reads that were never
performed. -/
inductive LoopOut where
  | tooLarge
  | readFail
  | badRequest
  | complete (buf : List Byte) (cap : Nat) (ph : ParsedHead)
      (restReads : List (List Byte))
deriving DecidableEq, Repr

/-- Read/parse loop of `HttpServer::handleConnection` (the incoming
byte stream is modelled as the list of chunks successive `client.read`
calls deliver; an exhausted list or an empty chunk is a read yielding
no bytes, which the code answers by closing with no response).  `buf`
holds the bytes accumulated so far (`prevbuflen` is its length) and
`cap` the allocated `std::vector` size, which starts at
`DEFAULT_BUFFER_SIZE` and grows to exactly the accumulated byte count
when that exceeds it. -/
def parseLoop (maxReq : Nat) : List (List Byte) → List Byte → Nat → LoopOut
  | reads, buf, cap =>
    if buf.length ≥ maxReq then .tooLarge
    else
      match reads with
      | [] => .readFail
      | chunk :: rest =>
        if chunk = [] then .readFail
        else if chunk.length + buf.length > maxReq then .tooLarge
        else
          let cap' := if chunk.length + buf.length > cap
                      then chunk.length + buf.length else cap
          let buf' := buf ++ chunk
          match phrParseRequest buf' with
          | .malformed => .badRequest
          | .incomplete => parseLoop maxReq rest buf' cap'
          | .complete ph => .complete buf' cap' ph rest

/-- Body extraction at the end of `HttpServer::handleConnection`'s parse
phase: `String(buf.data() + parse_result)` reads the zero-initialised
`std::vector` from the header-end offset as a NUL-terminated C string —
the scan is not bounded by the count of valid bytes, it stops at the
first NUL byte (the vector's value-initialised tail supplies NULs
beyond the received bytes). -/
def cStrFrom (buf : List Byte) (cap : Nat) (off : Nat) : List Byte :=
  ((buf ++ List.replicate (cap - buf.length) '\x00').drop off).takeWhile
    (fun c => !(c == '\x00'))

/-- Body bytes as `handleConnection` computes them: the C-string read at
the header-end offset when trailing bytes exist, otherwise empty. -/
def bodyOf (buf : List Byte) (cap : Nat) (headerEnd : Nat) : List Byte :=
  if headerEnd < buf.length then cStrFrom buf cap headerEnd else []

-- ===========================================================================
-- Data model (`HttpRequest`, `HubHttpResponse`, `RoutePattern`) — src/http_server.h
-- ===========================================================================

/-- Request object of `http_server.h`: method, path, body, ordered
headers with a lowercase lookup copy, query parameters and path
parameters.  Defaults are those of the `HttpRequest()` constructor. -/
structure HttpRequest where
  method : String := "GET"
  path : String := "/"
  body : String := ""
  headers : SMap := []
  query : SMap := []
  params : SMap := []
  headersLower : SMap := []
deriving DecidableEq, Repr

/-- Response object of `http_server.h` (statuses produced by the code
are the literals 200..503, so the C++ `int` is modelled as `Nat`).
Defaults are those of `HubHttpResponse()`. -/
structure HubHttpResponse where
  status : Nat := 200
  body : String := ""
  headers : SMap := []
deriving DecidableEq, Repr

/-- `HubHttpResponse::setStatus`. -/
def HubHttpResponse.setStatus (r : HubHttpResponse) (c : Nat) : HubHttpResponse :=
  { r with status := c }

/-- `HubHttpResponse::setBody`. -/
def HubHttpResponse.setBody (r : HubHttpResponse) (b : String) : HubHttpResponse :=
  { r with body := b }

/-- `HubHttpResponse::setHeader`. -/
def HubHttpResponse.setHeader (r : HubHttpResponse) (n v : String) : HubHttpResponse :=
  { r with headers := setA r.headers n v }

/-- `HubHttpResponse::html` (keeps the current status). -/
def HubHttpResponse.html (r : HubHttpResponse) (b : String) : HubHttpResponse :=
  { r with body := b,
           headers := setA r.headers "Content-Type" "text/html; charset=utf-8" }

/-- `HubHttpResponse::text` (keeps the current status). -/
def HubHttpResponse.text (r : HubHttpResponse) (b : String) : HubHttpResponse :=
  { r with body := b,
           headers := setA r.headers "Content-Type" "text/plain; charset=utf-8" }

/-- `RouteHandler` typedef. -/
abbrev RouteHandler := HttpRequest → HubHttpResponse

/-- `MiddlewareHandlerBool` typedef; middleware receives the request and
response by mutable reference, so the embedding has it return both next
to the continue/halt flag. -/
abbrev MiddlewareHandlerBool :=
  HttpRequest → HubHttpResponse → HttpRequest × HubHttpResponse × Bool

/-- `ErrorHandler` typedef. -/
abbrev ErrorHandler := Nat → String → HubHttpResponse

/-- `RoutePattern` entry of the parameterized route table. -/
structure RoutePattern where
  method : String
  pattern : String
  segments : List String
  handler : RouteHandler
  hasParams : Bool := false

/-- Pattern registration of `HttpServer::on(method, path, handler)`:
one trailing slash is stripped from the pattern, which is then split
into non-empty segments. -/
def mkRoutePattern (method path : String) (h : RouteHandler) : RoutePattern :=
  let segs := segsOf (stripSlash path)
  { method := method, pattern := path, segments := segs, handler := h,
    hasParams := segs.any isParamSeg }

-- ===========================================================================
-- Server state (the `HttpServer` private fields consulted per request)
-- ===========================================================================

/-- State of an `HttpServer` as consulted by the per-request pipeline;
field defaults are the in-class initialisers of `http_server.h`.  The
log sink is abstracted as a presence flag plus a `tail` function. -/
structure HttpServer where
  corsEnabled : Bool := false
  corsOrigin : String := "*"
  corsMethods : String := "GET, POST, PUT, DELETE, OPTIONS"
  corsHeaders : String := "Content-Type, Authorization"
  middlewares : List MiddlewareHandlerBool := []
  patternHandlers : List RoutePattern := []
  httpHandlers : AList RouteHandler := []
  notFoundHandler : Option RouteHandler := none
  errorHandler : Option ErrorHandler := none
  defaultHeaders : SMap := []
  keepAlive : Bool := false
  serverName : String := "Hub-Server"
  serverVersion : String := "1.0"
  beforeSendHook : Option (HttpRequest → HubHttpResponse → HubHttpResponse) := none
  loggerPresent : Bool := false
  logTail : Nat → String := fun _ => ""
  maxRequestSize : Nat := MAX_BUFFER_SIZE
  connectionInactivityTimeout : Nat := 300000

/-- `HttpServerConfig` of `http_server.h` (fields the embedding does not
consult are omitted). -/
structure HttpServerConfig where
  maxRequestSize : Nat := MAX_BUFFER_SIZE
  connectionInactivityTimeout : Nat := 300000
  keepAlive : Bool := false

/-- `HttpServer::begin(const HttpServerConfig&)`: the config fields are
assigned directly, with no clamping. -/
def HttpServer.beginConfig (s : HttpServer) (cfg : HttpServerConfig) : HttpServer :=
  { s with maxRequestSize := cfg.maxRequestSize,
           connectionInactivityTimeout := cfg.connectionInactivityTimeout,
           keepAlive := cfg.keepAlive }

/-- `HttpServer::setMaxRequestSize` (clamped between
`DEFAULT_BUFFER_SIZE` and `MAX_BUFFER_SIZE`). -/
def HttpServer.setMaxRequestSize (s : HttpServer) (maxSize : Nat) : HttpServer :=
  if maxSize > MAX_BUFFER_SIZE then { s with maxRequestSize := MAX_BUFFER_SIZE }
  else if maxSize < DEFAULT_BUFFER_SIZE then { s with maxRequestSize := DEFAULT_BUFFER_SIZE }
  else { s with maxRequestSize := maxSize }

/-- `HttpServer::setConnectionInactivityTimeout`. -/
def HttpServer.setConnectionInactivityTimeout (s : HttpServer) (t : Nat) : HttpServer :=
  { s with connectionInactivityTimeout := t }

/-- `HttpServer::setKeepAlive`. -/
def HttpServer.setKeepAlive (s : HttpServer) (b : Bool) : HttpServer :=
  { s with keepAlive := b }

/-- `HttpServer::enableCORS`. -/
def HttpServer.enableCORS (s : HttpServer) (origin methods headers : String) : HttpServer :=
  { s with corsEnabled := true, corsOrigin := origin,
           corsMethods := methods, corsHeaders := headers }

/-- `HttpServer::on(path, handler)` — exact-path, method-agnostic
registration. -/
def HttpServer.on (s : HttpServer) (path : String) (h : RouteHandler) : HttpServer :=
  { s with httpHandlers := setA s.httpHandlers path h }

/-- `HttpServer::on(method, path, handler)` — pattern registration
(named `onMethod` here since Lean does not overload on arity). -/
def HttpServer.onMethod (s : HttpServer) (method path : String) (h : RouteHandler) :
    HttpServer :=
  { s with patternHandlers := s.patternHandlers ++ [mkRoutePattern method path h] }

/-- `HttpServer::use(MiddlewareHandlerBool)`. -/
def HttpServer.use (s : HttpServer) (m : MiddlewareHandlerBool) : HttpServer :=
  { s with middlewares := s.middlewares ++ [m] }

/-- `HttpServer::use(MiddlewareHandler)` — the legacy overload wraps the
stage so it always continues. -/
def HttpServer.useLegacy (s : HttpServer)
    (m : HttpRequest → HubHttpResponse → HttpRequest × HubHttpResponse) : HttpServer :=
  s.use (fun req res => match m req res with | (req', res') => (req', res', true))

/-- `HttpServer::onNotFound`. -/
def HttpServer.onNotFound (s : HttpServer) (h : RouteHandler) : HttpServer :=
  { s with notFoundHandler := some h }

-- ===========================================================================
-- Per-request pipeline of `HttpServer::handleConnection`
-- ===========================================================================

/-- `HttpServer::applyCORS`. -/
def HttpServer.applyCORS (s : HttpServer) (r : HubHttpResponse) : HubHttpResponse :=
  if !s.corsEnabled then r
  else (((r.setHeader "Access-Control-Allow-Origin" s.corsOrigin).setHeader
          "Access-Control-Allow-Methods" s.corsMethods).setHeader
          "Access-Control-Allow-Headers" s.corsHeaders).setHeader
          "Access-Control-Max-Age" "86400"

/-- Loop body of `HttpServer::applyMiddlewares`: stages run in order and
a stage returning `false` breaks out of the loop. -/
def applyMiddlewaresList :
    List MiddlewareHandlerBool → HttpRequest → HubHttpResponse →
    HttpRequest × HubHttpResponse
  | [], req, res => (req, res)
  | m :: rest, req, res =>
    match m req res with
    | (req', res', true) => applyMiddlewaresList rest req' res'
    | (req', res', false) => (req', res')

/-- `HttpServer::applyMiddlewares`. -/
def HttpServer.applyMiddlewares (s : HttpServer) (req : HttpRequest)
    (res : HubHttpResponse) : HttpRequest × HubHttpResponse :=
  applyMiddlewaresList s.middlewares req res

/-- `HttpServer::applyDefaultHeaders`: each configured default header is
set only when the response does not already carry that name. -/
def HttpServer.applyDefaultHeaders (s : HttpServer) (r : HubHttpResponse) :
    HubHttpResponse :=
  s.defaultHeaders.foldl
    (fun r kv => if hasA r.headers kv.1 then r else r.setHeader kv.1 kv.2) r

/-- `HttpServer::generateErrorResponse`. -/
def HttpServer.generateErrorResponse (s : HttpServer) (code : Nat) (msg : String) :
    HubHttpResponse :=
  match s.errorHandler with
  | some eh => eh code msg
  | none => { status := code, body := msg, headers := [("Content-Type", "text/plain")] }

/-- Segment loop of `HttpServer::matchPattern`: `:name` segments write
their capture into the params map as they are visited, and a literal
mismatch returns `false` at once, keeping the captures already
written. -/
def matchSegs : List String → List String → SMap → SMap × Bool
  | [], [], ps => (ps, true)
  | patSeg :: pr, actSeg :: ar, ps =>
    if isParamSeg patSeg then matchSegs pr ar (setA ps (paramName patSeg) actSeg)
    else if patSeg = actSeg then matchSegs pr ar ps
    else (ps, false)
  | _, _, ps => (ps, false)

/-- `HttpServer::matchPattern` (the mutable `req.params` is passed in
and the possibly-extended map is returned next to the match flag). -/
def matchPattern (rp : RoutePattern) (method path : String) (ps : SMap) :
    SMap × Bool :=
  if !eqIgnoreCase rp.method method then (ps, false)
  else
    let pathSegs := segsOf (stripSlash path)
    if pathSegs.length ≠ rp.segments.length then (ps, false)
    else matchSegs rp.segments pathSegs ps

/-- Pattern scan of `handleConnection`: patterns are tried in
registration order, the first match wins, and every scan's params
writes stay on the request. -/
def scanPatterns : List RoutePattern → HttpRequest → HttpRequest × Option RouteHandler
  | [], req => (req, none)
  | rp :: rest, req =>
    match matchPattern rp req.method req.path req.params with
    | (ps', true) => ({ req with params := ps' }, some rp.handler)
    | (ps', false) => scanPatterns rest { req with params := ps' }

/-- Default welcome page of the `/` built-in route. -/
def welcomeHtml (s : HttpServer) : String :=
  "<html><head><title>" ++ s.serverName ++ "</title></head>" ++
  "<body><h1>Hello!</h1><h3>You\x27re connected to " ++ s.serverName ++ "!</h3>" ++
  "<p>Version: " ++ s.serverVersion ++ "</p></body></html>"

/-- `HttpRequest::getQueryParam` with the default-value argument fixed
to the empty string. -/
def HttpRequest.getQueryParam (req : HttpRequest) (name : String) : String :=
  match getA req.query name with
  | some v => v
  | none => ""

/-- `HttpRequest::hasQueryParam`. -/
def HttpRequest.hasQueryParam (req : HttpRequest) (name : String) : Bool :=
  (getA req.query name).isSome

/-- `HttpRequest::getHeader` (case-insensitive, via the lowercase copy),
default-value argument fixed to the empty string. -/
def HttpRequest.getHeader (req : HttpRequest) (name : String) : String :=
  match getA req.headersLower (lowerStr name) with
  | some v => v
  | none => ""

/-- Built-in `/log` response: 404 when no log sink is configured,
otherwise the tail of the sink with the line count from the `lines`
query parameter (0 or absent falling back to 20). -/
def logBuiltin (s : HttpServer) (req : HttpRequest) (res : HubHttpResponse) :
    HubHttpResponse :=
  if !s.loggerPresent then s.generateErrorResponse 404 "Logging not enabled"
  else
    let n :=
      if req.hasQueryParam "lines" then
        let n₀ := arduinoToInt (req.getQueryParam "lines")
        if n₀ = 0 then 20 else n₀
      else 20
    res.text (s.logTail n)

/-- Routing block of `HttpServer::handleConnection` (pattern scan, then
the exact-path table, then the `/` and `/log` built-ins, then the
not-found handler or the default 404), returning the request as the
scans left it together with the routed response. -/
def HttpServer.routeStep (s : HttpServer) (req : HttpRequest) (res : HubHttpResponse) :
    HttpRequest × HubHttpResponse :=
  match scanPatterns s.patternHandlers req with
  | (req', some h) => (req', h req')
  | (req', none) =>
    match getA s.httpHandlers req'.path with
    | some h => (req', h req')
    | none =>
      if req'.path == "/" then (req', res.html (welcomeHtml s))
      else if req'.path == "/log" then (req', logBuiltin s req' res)
      else
        match s.notFoundHandler with
        | some nf => (req', nf req')
        | none => (req', s.generateErrorResponse 404 "Not Found")

/-- Header-policy block of `handleConnection` after routing: CORS
headers when enabled, a `Server` header when the handler set none,
configured default headers for absent names, the `Connection` header
per the keep-alive flag (overwriting), then the optional pre-send
hook. -/
def HttpServer.finalizeResponse (s : HttpServer) (req : HttpRequest)
    (res : HubHttpResponse) : HubHttpResponse :=
  let r₁ := if s.corsEnabled then s.applyCORS res else res
  let r₂ := if hasA r₁.headers "Server" then r₁
            else r₁.setHeader "Server" (s.serverName ++ "/" ++ s.serverVersion)
  let r₃ := s.applyDefaultHeaders r₂
  let r₄ := r₃.setHeader "Connection" (if s.keepAlive then "keep-alive" else "close")
  match s.beforeSendHook with
  | some f => f req r₄
  | none => r₄

/-- Request-processing block of `handleConnection` from the constructed
`HttpRequest` to the response handed to `respondToClient`: when CORS is
enabled and the method is `OPTIONS`, a 204 with CORS headers is sent
directly; otherwise middlewares run, then routing, then response
finalization. -/
def HttpServer.handleRequest (s : HttpServer) (req : HttpRequest) : HubHttpResponse :=
  let response : HubHttpResponse := {}
  if s.corsEnabled && req.method == "OPTIONS" then
    s.applyCORS (response.setStatus 204)
  else
    let mres := s.applyMiddlewares req response
    let rres := s.routeStep mres.1 mres.2
    s.finalizeResponse rres.1 rres.2

/-- Query-string parsing of `handleConnection`: pairs split on `&`, each
split on `=`; two parts store key/value, one part stores the key with an
empty value, anything else is ignored.  The `split` helper comes from
the hub-robot-core dependency and is modelled as a plain
keep-empty-parts splitter. -/
def parseQuery (qs : List Byte) : SMap :=
  (splitChar '&' qs).foldl
    (fun q pair =>
      match splitChar '=' pair with
      | [k, v] => setA q (String.mk k) (String.mk v)
      | [k] => setA q (String.mk k) ""
      | _ => q) []

/-- Request construction of `handleConnection` (lines after the parse
loop): method from the parsed token, path split from the query string at
the first `?`, one trailing slash stripped unless the path is `/`,
headers stored with both original-case and lowercase keys, and the body
as extracted by `bodyOf`. -/
def buildRequest (ph : ParsedHead) (body : List Byte) : HttpRequest :=
  let fp := ph.path.data
  let pathAndQuery : String × SMap :=
    match findByte '?' fp with
    | some qpos => (String.mk (fp.take qpos), parseQuery (fp.drop (qpos + 1)))
    | none => (ph.path, [])
  let hdrs := ph.headers.foldl
    (fun (pr : SMap × SMap) h => (setA pr.1 h.1 h.2, setA pr.2 (lowerStr h.1) h.2))
    ([], [])
  { method := ph.method, path := stripSlash pathAndQuery.1,
    body := String.mk body, headers := hdrs.1, query := pathAndQuery.2,
    params := [], headersLower := hdrs.2 }

/-- `HttpServer::handleConnection` for one ready connection: the memory
guard (503 and close), the no-data early return (keep), then the parse
loop with its 413/400/read-failure terminal paths, then request
construction and the request pipeline.  The returned flag is
`handleConnection`'s return value: `true` keeps the connection in the
pool, `false` has `tick` erase it.  Note the served path returns `true`
whatever the keep-alive setting. -/
def HttpServer.handleConnection (s : HttpServer) (memOK : Bool)
    (reads : List (List Byte)) : Option HubHttpResponse × Bool :=
  if !memOK then (some (s.generateErrorResponse 503 "Service Unavailable"), false)
  else if reads.isEmpty then (none, true)
  else
    match parseLoop s.maxRequestSize reads [] DEFAULT_BUFFER_SIZE with
    | .tooLarge => (some (s.generateErrorResponse 413 "Payload Too Large"), false)
    | .readFail => (none, false)
    | .badRequest => (some (s.generateErrorResponse 400 "Bad Request"), false)
    | .complete buf cap ph _rest =>
      let req := buildRequest ph (bodyOf buf cap ph.headerEnd)
      (some (s.handleRequest req), true)

-- ===========================================================================
-- Connection objects and the per-tick treatment
-- ===========================================================================

/-- File-scope constant of the server translation unit used by
`HttpClientConnection::isActive`. -/
def CLIENT_INACTIVITY_TIMEOUT_MS : Nat := 300000

/-- One pooled connection: the socket's connected state, the
last-activity timestamp, and the bytes the socket currently has to
deliver (as read chunks). -/
structure HttpClientConnection where
  connectedFlag : Bool
  lastActivityMillis : Nat
  reads : List (List Byte)

/-- `HttpClientConnection::isActive`: compares the idle time against the
file-scope `CLIENT_INACTIVITY_TIMEOUT_MS` constant. -/
def HttpClientConnection.isActive (c : HttpClientConnection) (now : Nat) : Bool :=
  now - c.lastActivityMillis < CLIENT_INACTIVITY_TIMEOUT_MS

/-- Treatment of one pooled connection inside `HttpServer::tick`'s loop:
a disconnected or inactive connection is erased, otherwise the
connection stays exactly when `handleConnection` returns `true`.
Returns `true` when the connection is kept in the pool. -/
def HttpServer.tickKeeps (s : HttpServer) (memOK : Bool) (now : Nat)
    (c : HttpClientConnection) : Bool :=
  if c.connectedFlag then
    if !(c.isActive now) then false
    else (s.handleConnection memOK c.reads).2
  else false

-- ===========================================================================
-- Spec-side route resolution (for the refinement claim about matching order)
-- ===========================================================================

/-- Match predicate as the spec words it: the route's method equals the
request method case-insensitively, its segment count equals the
normalized path's segment count, and position by position a literal
segment must be equal while a `:name` segment matches any value. -/
def specMatches (rp : RoutePattern) (method path : String) : Bool :=
  eqIgnoreCase rp.method method &&
  (let pathSegs := segsOf (stripSlash path)
   rp.segments.length == pathSegs.length &&
   (List.zip rp.segments pathSegs).all
     (fun pr => isParamSeg pr.1 || pr.1 == pr.2))

/-- Captured name/value pairs of a pattern against the path segments, in
segment order. -/
def capturesOf (patSegs actSegs : List String) : List (String × String) :=
  (List.zip patSegs actSegs).filterMap
    (fun pr => if isParamSeg pr.1 then some (paramName pr.1, pr.2) else none)

/-- Write a list of pairs into a map in order, later writes winning. -/
def setMany (m : SMap) (l : List (String × String)) : SMap :=
  l.foldl (fun m kv => setA m kv.1 kv.2) m

/-- Resolution order as the spec words it: scan the parameterized routes
in registration order with first match winning, only then the
method-agnostic exact-path table at the normalized path, then the `/`
and `/log` built-ins, then the not-found handler or the default 404.
`delivered` is the request value handed to whichever handler is chosen. -/
def specResolve (s : HttpServer) (delivered req : HttpRequest)
    (res : HubHttpResponse) : HubHttpResponse :=
  match s.patternHandlers.find? (fun rp => specMatches rp req.method req.path) with
  | some rp => rp.handler delivered
  | none =>
    match getA s.httpHandlers (stripSlash req.path) with
    | some h => h delivered
    | none =>
      if stripSlash req.path == "/" then res.html (welcomeHtml s)
      else if stripSlash req.path == "/log" then logBuiltin s delivered res
      else
        match s.notFoundHandler with
        | some nf => nf delivered
        | none => s.generateErrorResponse 404 "Not Found"

-- ===========================================================================
-- Lemmas about the pattern matcher and the scan
-- ===========================================================================

theorem matchSegs_bool (act : List String) (pat : List String) (ps : SMap)
    (hlen : pat.length = act.length) :
    (matchSegs pat act ps).2 =
      (List.zip pat act).all (fun pr => isParamSeg pr.1 || pr.1 == pr.2) := by
  induction pat generalizing act ps with
  | nil =>
    cases act with
    | nil => simp [matchSegs]
    | cons a as => simp at hlen
  | cons p pr ih =>
    cases act with
    | nil => simp at hlen
    | cons a as =>
      simp only [List.length_cons, Nat.succ_inj] at hlen
      by_cases hp : isParamSeg p
      · simp [matchSegs, hp, ih as _ hlen]
      · by_cases he : p = a
        · subst he
          simp [matchSegs, hp, ih as _ hlen]
        · simp [matchSegs, hp, he]

theorem matchSegs_params_of_true (act : List String) (pat : List String) (ps : SMap)
    (h : (matchSegs pat act ps).2 = true) :
    (matchSegs pat act ps).1 = setMany ps (capturesOf pat act) := by
  induction pat generalizing act ps with
  | nil =>
    cases act with
    | nil => simp [matchSegs, setMany, capturesOf]
    | cons a as => simp [matchSegs] at h
  | cons p pr ih =>
    cases act with
    | nil => simp [matchSegs] at h
    | cons a as =>
      by_cases hp : isParamSeg p
      · simp only [matchSegs, hp, if_pos, ite_true] at h ⊢
        rw [ih as _ h]
        simp [capturesOf, setMany, hp, List.zip]
      · by_cases he : p = a
        · subst he
          simp only [matchSegs, hp, ite_false, ite_true, Bool.false_eq_true,
            not_false_eq_true, if_true, if_false, if_neg, if_pos] at h ⊢
          rw [ih as _ h]
          simp [capturesOf, setMany, hp, List.zip]
        · simp [matchSegs, hp, he] at h

theorem matchPattern_bool (rp : RoutePattern) (method path : String) (ps : SMap) :
    (matchPattern rp method path ps).2 = specMatches rp method path := by
  unfold matchPattern specMatches
  by_cases hm : eqIgnoreCase rp.method method
  · by_cases hl : (segsOf (stripSlash path)).length = rp.segments.length
    · simp [hm, hl, matchSegs_bool _ _ _ hl.symm]
    · have : ¬ rp.segments.length = (segsOf (stripSlash path)).length :=
        fun h => hl h.symm
      simp [hm, hl, this]
  · simp [hm]

theorem matchPattern_params_of_true (rp : RoutePattern) (method path : String)
    (ps : SMap) (h : (matchPattern rp method path ps).2 = true) :
    (matchPattern rp method path ps).1 =
      setMany ps (capturesOf rp.segments (segsOf (stripSlash path))) := by
  unfold matchPattern at h ⊢
  by_cases hm : eqIgnoreCase rp.method method
  · by_cases hl : (segsOf (stripSlash path)).length = rp.segments.length
    · simp only [hm, hl, Bool.not_true, ite_false, ite_true, ne_eq,
        not_true_eq_false, Bool.false_eq_true, if_false, if_true] at h ⊢
      exact matchSegs_params_of_true _ _ _ h
    · simp [hm, hl] at h
  · simp [hm] at h

theorem scanPatterns_fields (rps : List RoutePattern) (req : HttpRequest) :
    (scanPatterns rps req).1 = { req with params := ((scanPatterns rps req).1).params } := by
  induction rps generalizing req with
  | nil => simp [scanPatterns]
  | cons rp rest ih =>
    unfold scanPatterns
    rcases hmp : matchPattern rp req.method req.path req.params with ⟨ps', b⟩
    cases b
    · simpa using ih { req with params := ps' }
    · simp

theorem scanPatterns_spec (rps : List RoutePattern) (req : HttpRequest) :
    (match rps.find? (fun rp => specMatches rp req.method req.path) with
     | some rp =>
        (scanPatterns rps req).2 = some rp.handler ∧
        ∃ ps₀, ((scanPatterns rps req).1).params =
          setMany ps₀ (capturesOf rp.segments (segsOf (stripSlash req.path)))
     | none => (scanPatterns rps req).2 = none) := by
  induction rps generalizing req with
  | nil => simp [scanPatterns]
  | cons rp rest ih =>
    rcases hmp : matchPattern rp req.method req.path req.params with ⟨ps', b⟩
    have hb : b = specMatches rp req.method req.path := by
      have h₁ := matchPattern_bool rp req.method req.path req.params
      rw [hmp] at h₁
      exact h₁
    cases hbv : b with
    | true =>
      have hspec : specMatches rp req.method req.path = true := by
        rw [← hb, hbv]
      have hps : ps' = setMany req.params
          (capturesOf rp.segments (segsOf (stripSlash req.path))) := by
        have h₂ := matchPattern_params_of_true rp req.method req.path req.params
          (by rw [hmp, hbv])
        rw [hmp] at h₂
        exact h₂
      have hstep : scanPatterns (rp :: rest) req =
          ({ req with params := ps' }, some rp.handler) := by
        simp only [scanPatterns]
        rw [hmp, hbv]
      have hfindc : List.find? (fun r => specMatches r req.method req.path)
          (rp :: rest) = some rp := by
        simp [List.find?_cons, hspec]
      rw [hfindc, hstep]
      exact ⟨rfl, req.params, by simpa using hps⟩
    | false =>
      have hspec : specMatches rp req.method req.path = false := by
        rw [← hb, hbv]
      have hstep : scanPatterns (rp :: rest) req =
          scanPatterns rest { req with params := ps' } := by
        simp only [scanPatterns]
        rw [hmp, hbv]
      have hfindc : List.find? (fun r => specMatches r req.method req.path)
          (rp :: rest) =
          List.find? (fun r => specMatches r req.method req.path) rest := by
        simp [List.find?_cons, hspec]
      rw [hfindc, hstep]
      simpa using ih { req with params := ps' }

/-- Claim C5 — route resolution order.  The routing block agrees with
the spec-side resolution: first matching parameterized route (in
registration order, with the spec's match predicate: case-insensitive
method, equal segment counts, equal literal segments), then the
method-agnostic exact-path table at the normalized path, then the `/`
and `/log` built-ins, then the not-found handler or default 404; and
when a pattern wins, its `:name` captures are the final writes into the
delivered request's params, each holding the corresponding path segment
regardless of value. -/
theorem c5_route_resolution_order (s : HttpServer) (req : HttpRequest)
    (res : HubHttpResponse) (hnorm : stripSlash req.path = req.path) :
    (s.routeStep req res).2 = specResolve s ((s.routeStep req res).1) req res ∧
    (∀ rp, s.patternHandlers.find? (fun rp => specMatches rp req.method req.path)
        = some rp →
      ∃ ps₀, ((s.routeStep req res).1).params =
        setMany ps₀ (capturesOf rp.segments (segsOf (stripSlash req.path)))) := by
  have hspec := scanPatterns_spec s.patternHandlers req
  have hfields := scanPatterns_fields s.patternHandlers req
  rcases hscan : scanPatterns s.patternHandlers req with ⟨req', hOpt⟩
  rw [hscan] at hspec hfields
  simp only at hspec hfields
  have hpath : req'.path = req.path := by
    conv_lhs => rw [hfields]
  rcases hfind : s.patternHandlers.find?
      (fun rp => specMatches rp req.method req.path) with _ | rp
  · rw [hfind] at hspec
    have hnone : hOpt = none := hspec
    subst hnone
    have hrs : s.routeStep req res =
        (match getA s.httpHandlers req'.path with
         | some h => (req', h req')
         | none =>
           if req'.path == "/" then (req', res.html (welcomeHtml s))
           else if req'.path == "/log" then (req', logBuiltin s req' res)
           else
             match s.notFoundHandler with
             | some nf => (req', nf req')
             | none => (req', s.generateErrorResponse 404 "Not Found")) := by
      unfold HttpServer.routeStep
      rw [hscan]
    constructor
    · rw [hrs]
      unfold specResolve
      rw [hfind, hnorm, ← hpath]
      rcases hget : getA s.httpHandlers req'.path with _ | h
      · cases hroot : (req'.path == "/")
        · cases hlog : (req'.path == "/log")
          · rcases hnf : s.notFoundHandler with _ | nf <;>
              simp [hroot, hlog, hnf]
          · simp [hroot, hlog]
        · simp [hroot]
      · simp
    · intro rp hrp
      exact absurd hrp (by simp)
  · rw [hfind] at hspec
    rcases hspec with ⟨hh, ps₀, hps⟩
    subst hh
    have hrs : s.routeStep req res = (req', rp.handler req') := by
      unfold HttpServer.routeStep
      rw [hscan]
    constructor
    · rw [hrs]
      unfold specResolve
      rw [hfind]
    · intro rp' hrp'
      have hrr : rp = rp' := by
        injection hrp'
      subst hrr
      exact ⟨ps₀, by rw [hrs]; exact hps⟩

theorem getA_setA_cases {α : Type} (m : AList α) (n k : String) (a : α) (v : α)
    (h : getA (setA m n a) k = some v) :
    (k = n ∧ v = a) ∨ getA m k = some v := by
  by_cases hk : k = n
  · subst hk
    rw [getA_setA_self] at h
    exact Or.inl ⟨rfl, by injection h with h₅; exact h₅.symm⟩
  · rw [getA_setA_ne _ _ _ _ (fun he => hk he.symm)] at h
    exact Or.inr h

/-- Origin of a binding after the segment loop of `matchPattern`: every
lookup result either was there before the scan or is the capture of
some `:name` segment whose earlier literal segments all matched — the
segments after that position are unconstrained, so a scan that fails on
a later literal still contributes its earlier captures. -/
theorem matchSegs_params_origin (pat : List String) (act : List String) (ps : SMap)
    (k v : String) (h : getA (matchSegs pat act ps).1 k = some v) :
    getA ps k = some v ∨
    ∃ i pseg aseg, pat.get? i = some pseg ∧ act.get? i = some aseg ∧
      isParamSeg pseg = true ∧ paramName pseg = k ∧ aseg = v ∧
      (∀ j pj aj, j < i → pat.get? j = some pj → act.get? j = some aj →
        isParamSeg pj = false → pj = aj) := by
  induction pat generalizing act ps with
  | nil =>
    cases act with
    | nil => left; simpa [matchSegs] using h
    | cons a as => left; simpa [matchSegs] using h
  | cons p pr ih =>
    cases act with
    | nil => left; simpa [matchSegs] using h
    | cons a as =>
      by_cases hp : isParamSeg p
      · simp only [matchSegs, hp, ite_true, if_true] at h
        rcases ih as _ h with h₀ | ⟨i, pseg, aseg, h1, h2, h3, h4, h5, h6⟩
        · rcases getA_setA_cases ps (paramName p) k a v h₀ with ⟨hk, hv⟩ | hrest
          · right
            refine ⟨0, p, a, rfl, rfl, hp, hk.symm, hv.symm, ?_⟩
            intro j pj aj hj
            exact absurd hj (Nat.not_lt_zero j)
          · left; exact hrest
        · right
          refine ⟨i + 1, pseg, aseg, by simpa using h1, by simpa using h2,
            h3, h4, h5, ?_⟩
          intro j pj aj hj hpj haj hlit
          cases j with
          | zero =>
            simp only [List.get?] at hpj
            injection hpj with hpj'
            subst hpj'
            exact absurd hp (by rw [hlit]; simp)
          | succ j' =>
            exact h6 j' pj aj (by omega) (by simpa using hpj)
              (by simpa using haj) hlit
      · by_cases he : p = a
        · subst he
          simp only [matchSegs, hp, ite_false, if_false, Bool.false_eq_true,
            not_false_eq_true, ite_true, if_true] at h
          rcases ih as _ h with h₀ | ⟨i, pseg, aseg, h1, h2, h3, h4, h5, h6⟩
          · left; exact h₀
          · right
            refine ⟨i + 1, pseg, aseg, by simpa using h1, by simpa using h2,
              h3, h4, h5, ?_⟩
            intro j pj aj hj hpj haj hlit
            cases j with
            | zero =>
              simp only [List.get?] at hpj haj
              injection hpj with hpj'
              injection haj with haj'
              rw [← hpj', ← haj']
            | succ j' =>
              exact h6 j' pj aj (by omega) (by simpa using hpj)
                (by simpa using haj) hlit
        · left
          simpa [matchSegs, hp, he] using h

/-- Claim C9, amended — params entries originate only in capture writes
of the scanned patterns.  A binding present after `matchPattern` either
predates the call or is the capture of a `:name` segment of that route
at a position whose earlier literal segments all equal the path's
segments, with the route's method matching case-insensitively and its
segment count equal to the path's — the route may still have failed on
a literal after that position, so a failed scan does not leave the
params map unchanged. -/
theorem c9_amended_params_only_from_captures (rp : RoutePattern)
    (method path : String) (ps : SMap) (k v : String)
    (h : getA (matchPattern rp method path ps).1 k = some v) :
    getA ps k = some v ∨
    (eqIgnoreCase rp.method method = true ∧
     (segsOf (stripSlash path)).length = rp.segments.length ∧
     ∃ i pseg aseg, rp.segments.get? i = some pseg ∧
       (segsOf (stripSlash path)).get? i = some aseg ∧
       isParamSeg pseg = true ∧ paramName pseg = k ∧ aseg = v ∧
       (∀ j pj aj, j < i → rp.segments.get? j = some pj →
         (segsOf (stripSlash path)).get? j = some aj →
         isParamSeg pj = false → pj = aj)) := by
  unfold matchPattern at h
  by_cases hm : eqIgnoreCase rp.method method
  · by_cases hl : (segsOf (stripSlash path)).length = rp.segments.length
    · simp only [hm, hl, Bool.not_true, ite_false, if_false, ne_eq,
        not_true_eq_false, Bool.false_eq_true, if_true, ite_true] at h
      rcases matchSegs_params_origin rp.segments (segsOf (stripSlash path)) ps k v h
        with h₀ | hcap
      · left; exact h₀
      · right; exact ⟨hm, hl, hcap⟩
    · left
      simpa [hm, hl] using h
  · left
    simpa [hm] using h

-- ===========================================================================
-- Lemmas about the incremental parse loop
-- ===========================================================================

theorem findTerm_bound (l : List Byte) (i : Nat) (h : findTerm l = some i) :
    i + 4 ≤ l.length := by
  induction l generalizing i with
  | nil => simp [findTerm] at h
  | cons c rest ih =>
    rw [findTerm] at h
    by_cases hc : (c :: rest).take 4 = ['\r', '\n', '\r', '\n']
    · rw [if_pos hc] at h
      injection h with h₁
      subst h₁
      have hlen : ((c :: rest).take 4).length = 4 := by rw [hc]; rfl
      rw [List.length_take] at hlen
      omega
    · rw [if_neg hc] at h
      rcases hj : findTerm rest with _ | j
      · rw [hj] at h; simp at h
      · rw [hj] at h
        simp at h
        have hih := ih j hj
        simp only [List.length_cons]
        omega

theorem findTerm_append (l t : List Byte) (i : Nat) (h : findTerm l = some i) :
    findTerm (l ++ t) = some i := by
  induction l generalizing i with
  | nil => simp [findTerm] at h
  | cons c rest ih =>
    rw [findTerm] at h
    by_cases hc : (c :: rest).take 4 = ['\r', '\n', '\r', '\n']
    · rw [if_pos hc] at h
      have hlen : 4 ≤ (c :: rest).length := by
        have hl4 : ((c :: rest).take 4).length = 4 := by rw [hc]; rfl
        rw [List.length_take] at hl4
        omega
      have hc' : ((c :: rest) ++ t).take 4 = ['\r', '\n', '\r', '\n'] := by
        rw [List.take_append_of_le_length hlen]
        exact hc
      rw [show (c :: rest) ++ t = c :: (rest ++ t) from rfl] at hc' ⊢
      rw [findTerm, if_pos hc']
      exact h
    · rw [if_neg hc] at h
      rcases hj : findTerm rest with _ | j
      · rw [hj] at h; simp at h
      · rw [hj] at h
        simp at h
        have hb := findTerm_bound rest j hj
        have hc' : ¬ (c :: (rest ++ t)).take 4 = ['\r', '\n', '\r', '\n'] := by
          have hlen : 4 ≤ (c :: rest).length := by
            simp only [List.length_cons]; omega
          rw [show c :: (rest ++ t) = (c :: rest) ++ t from rfl,
            List.take_append_of_le_length hlen]
          exact hc
        rw [show (c :: rest) ++ t = c :: (rest ++ t) from rfl, findTerm,
          if_neg hc', ih j hj]
        simpa using h

/-- Prefix stability of the head parse: bytes arriving after a complete
head do not change the parse result (the head is delimited by the first
CRLFCRLF). -/
theorem phrParseRequest_append (l t : List Byte) (ph : ParsedHead)
    (h : phrParseRequest l = .complete ph) :
    phrParseRequest (l ++ t) = .complete ph := by
  unfold phrParseRequest at h ⊢
  rcases hft : findTerm l with _ | i
  · rw [hft] at h
    exact absurd h (by simp)
  · rw [hft] at h
    rw [findTerm_append l t i hft]
    have h' : parseHead (l.take i) (i + 4) = .complete ph := h
    show parseHead ((l ++ t).take i) (i + 4) = .complete ph
    have hb := findTerm_bound l i hft
    rw [List.take_append_of_le_length (show i ≤ l.length by omega)]
    exact h'

theorem parseLoop_complete (maxReq : Nat) (reads : List (List Byte))
    (buf : List Byte) (cap : Nat) (buf' : List Byte) (cap' : Nat)
    (ph : ParsedHead) (rest' : List (List Byte))
    (h : parseLoop maxReq reads buf cap = .complete buf' cap' ph rest') :
    (∃ k, buf' = buf ++ (reads.take k).flatten) ∧
    phrParseRequest buf' = .complete ph ∧ buf'.length ≤ maxReq ∧ 0 < maxReq := by
  induction reads generalizing buf cap with
  | nil =>
    rw [parseLoop] at h
    by_cases hb : buf.length ≥ maxReq <;> simp [hb] at h
  | cons chunk rest ih =>
    rw [parseLoop] at h
    by_cases hb : buf.length ≥ maxReq
    · simp [hb] at h
    · rw [if_neg hb] at h
      by_cases hch : chunk = []
      · simp [hch] at h
      · rw [if_neg hch] at h
        by_cases hsz : chunk.length + buf.length > maxReq
        · simp [hsz] at h
        · rw [if_neg hsz] at h
          simp only at h
          rcases hpr : phrParseRequest (buf ++ chunk) with ph₁ | _ | _
          · rw [hpr] at h
            injection h with h₁ h₂ h₃ h₄
            subst h₁
            subst h₃
            refine ⟨⟨1, by simp⟩, hpr, by simp only [List.length_append]; omega,
              by omega⟩
          · rw [hpr] at h
            rcases ih (buf ++ chunk) _ h with ⟨⟨k, hk⟩, hp, hle, hpos⟩
            refine ⟨⟨k + 1, ?_⟩, hp, hle, hpos⟩
            rw [hk]
            simp [List.append_assoc]
          · rw [hpr] at h
            simp at h

theorem parseLoop_cap (maxReq : Nat) (reads : List (List Byte))
    (buf : List Byte) (cap : Nat) (buf' : List Byte) (cap' : Nat)
    (ph : ParsedHead) (rest' : List (List Byte))
    (h : parseLoop maxReq reads buf cap = .complete buf' cap' ph rest')
    (hc : buf.length ≤ cap) : buf'.length ≤ cap' := by
  induction reads generalizing buf cap with
  | nil =>
    rw [parseLoop] at h
    by_cases hb : buf.length ≥ maxReq <;> simp [hb] at h
  | cons chunk rest ih =>
    rw [parseLoop] at h
    by_cases hb : buf.length ≥ maxReq
    · simp [hb] at h
    · rw [if_neg hb] at h
      by_cases hch : chunk = []
      · simp [hch] at h
      · rw [if_neg hch] at h
        by_cases hsz : chunk.length + buf.length > maxReq
        · simp [hsz] at h
        · rw [if_neg hsz] at h
          simp only at h
          rcases hpr : phrParseRequest (buf ++ chunk) with ph₁ | _ | _
          · rw [hpr] at h
            injection h with h₁ h₂ h₃ h₄
            subst h₁
            subst h₂
            by_cases hgrow : chunk.length + buf.length > cap <;>
              simp only [List.length_append, hgrow, if_pos, if_neg, ite_true,
                ite_false] <;> omega
          · rw [hpr] at h
            exact ih (buf ++ chunk) _ h
              (by by_cases hgrow : chunk.length + buf.length > cap <;>
                simp only [List.length_append, hgrow, ite_true, ite_false] <;>
                omega)
          · rw [hpr] at h
            simp at h

theorem parseLoop_overflow (maxReq : Nat) (reads : List (List Byte))
    (buf : List Byte) (cap : Nat)
    (hne : ∀ c ∈ reads, c ≠ [])
    (hinc : ∀ k, k ≤ reads.length →
      phrParseRequest (buf ++ (reads.take k).flatten) = .incomplete)
    (htot : maxReq < buf.length + reads.flatten.length) :
    parseLoop maxReq reads buf cap = .tooLarge := by
  induction reads generalizing buf cap with
  | nil =>
    rw [parseLoop]
    simp only [List.flatten_nil, List.length_nil] at htot
    rw [if_pos (by omega)]
  | cons chunk rest ih =>
    rw [parseLoop]
    by_cases hb : buf.length ≥ maxReq
    · rw [if_pos hb]
    · rw [if_neg hb]
      have hch : chunk ≠ [] := hne chunk (by simp)
      rw [if_neg hch]
      by_cases hsz : chunk.length + buf.length > maxReq
      · rw [if_pos hsz]
      · rw [if_neg hsz]
        simp only
        have h1 : phrParseRequest (buf ++ chunk) = .incomplete := by
          have := hinc 1 (by simp)
          simpa using this
        rw [h1]
        apply ih (buf ++ chunk)
        · intro c hc
          exact hne c (by simp [hc])
        · intro k hk
          have := hinc (k + 1) (by simpa using Nat.succ_le_succ hk)
          simpa [List.append_assoc] using this
        · simp only [List.flatten_cons, List.length_append] at htot ⊢
          omega

-- ===========================================================================
-- Lemmas about the C-string body extraction
-- ===========================================================================

theorem takeWhile_append_nuls (l : List Byte) (n : Nat) :
    (l ++ List.replicate n '\x00').takeWhile (fun c => !(c == '\x00')) =
    l.takeWhile (fun c => !(c == '\x00')) := by
  induction l with
  | nil =>
    cases n with
    | zero => rfl
    | succ m => simp [List.replicate_succ, List.takeWhile_cons]
  | cons c rest ih =>
    rw [List.cons_append, List.takeWhile_cons, List.takeWhile_cons]
    by_cases hc : c = '\x00'
    · subst hc
      simp
    · have hb : (c == '\x00') = false := beq_eq_false_iff_ne.mpr hc
      rw [hb]
      simp only [Bool.not_false, if_true, ite_true]
      rw [ih]

theorem takeWhile_ne_shorter (l : List Byte) (h : '\x00' ∈ l) :
    (l.takeWhile (fun c => !(c == '\x00'))).length < l.length := by
  induction l with
  | nil => simp at h
  | cons c rest ih =>
    rw [List.takeWhile_cons]
    by_cases hc : c = '\x00'
    · subst hc
      simp
    · have hmem : '\x00' ∈ rest := by
        rcases List.mem_cons.mp h with h₁ | h₁
        · exact absurd h₁.symm hc
        · exact h₁
      have hb : (c == '\x00') = false := beq_eq_false_iff_ne.mpr hc
      rw [hb]
      simp only [Bool.not_false, if_true, ite_true, List.length_cons]
      exact Nat.succ_lt_succ (ih hmem)

theorem cStrFrom_eq_takeWhile (buf : List Byte) (cap off : Nat)
    (hoff : off ≤ buf.length) :
    cStrFrom buf cap off = (buf.drop off).takeWhile (fun c => !(c == '\x00')) := by
  unfold cStrFrom
  rw [List.drop_append_of_le_length hoff]
  exact takeWhile_append_nuls _ _

-- ===========================================================================
-- Finalization and serving-path facts
-- ===========================================================================

theorem finalize_connection_close (s : HttpServer) (req : HttpRequest)
    (res : HubHttpResponse) (hka : s.keepAlive = false)
    (hhook : s.beforeSendHook = none) :
    getA (s.finalizeResponse req res).headers "Connection" = some "close" := by
  unfold HttpServer.finalizeResponse
  rw [hhook, hka]
  simp only [Bool.false_eq_true, if_false, ite_false, HubHttpResponse.setHeader]
  exact getA_setA_self _ _ _

/-- Claim C6, amended — when the parse loop completes, `handleConnection`
returns `true` (keep the connection in the pool) whatever the keep-alive
flag; with keep-alive disabled (and no pre-send hook overriding headers,
on a non-preflight request) the transmitted response carries
`Connection: close`, but the server itself does not tear the connection
down after the response — it is removed only through disconnect,
inactivity or a fatal-error path. -/
theorem c6_amended_kept_with_close_header (s : HttpServer)
    (reads : List (List Byte)) (buf : List Byte) (cap : Nat)
    (ph : ParsedHead) (rest : List (List Byte))
    (hne : reads ≠ [])
    (hp : parseLoop s.maxRequestSize reads [] DEFAULT_BUFFER_SIZE =
      .complete buf cap ph rest)
    (hka : s.keepAlive = false) (hhook : s.beforeSendHook = none)
    (hpre : (s.corsEnabled &&
      ((buildRequest ph (bodyOf buf cap ph.headerEnd)).method == "OPTIONS")) = false) :
    (s.handleConnection true reads).2 = true ∧
    ∃ r, (s.handleConnection true reads).1 = some r ∧
      getA r.headers "Connection" = some "close" := by
  have hce : reads.isEmpty = false := by
    cases reads with
    | nil => exact absurd rfl hne
    | cons c cs => rfl
  unfold HttpServer.handleConnection
  rw [hce, hp]
  refine ⟨rfl, s.handleRequest (buildRequest ph (bodyOf buf cap ph.headerEnd)),
    rfl, ?_⟩
  unfold HttpServer.handleRequest
  rw [hpre]
  exact finalize_connection_close s _ _ hka hhook

/-- Claim C8 — CORS preflight.  With CORS enabled, an `OPTIONS` request
is answered directly with a 204 carrying the CORS headers and an empty
body; the result does not consult the middleware list, the route tables
or the not-found handler (replacing them all changes nothing). -/
theorem c8_cors_preflight (s : HttpServer) (req : HttpRequest)
    (hc : s.corsEnabled = true) (hm : req.method = "OPTIONS") :
    (s.handleRequest req).status = 204 ∧
    (s.handleRequest req).body = "" ∧
    getA (s.handleRequest req).headers "Access-Control-Allow-Origin"
      = some s.corsOrigin ∧
    getA (s.handleRequest req).headers "Access-Control-Allow-Methods"
      = some s.corsMethods ∧
    getA (s.handleRequest req).headers "Access-Control-Allow-Headers"
      = some s.corsHeaders ∧
    getA (s.handleRequest req).headers "Access-Control-Max-Age" = some "86400" ∧
    ∀ mws phs hhs nfh,
      HttpServer.handleRequest
        { s with middlewares := mws, patternHandlers := phs,
                 httpHandlers := hhs, notFoundHandler := nfh } req
        = s.handleRequest req := by
  have hcond : (s.corsEnabled && (req.method == "OPTIONS")) = true := by
    rw [hc, hm]
    rfl
  have hreq : s.handleRequest req =
      s.applyCORS (HubHttpResponse.setStatus {} 204) := by
    unfold HttpServer.handleRequest
    rw [hcond]
    simp
  have hcors : s.applyCORS (HubHttpResponse.setStatus {} 204) =
      { status := 204, body := "",
        headers := [("Access-Control-Allow-Origin", s.corsOrigin),
          ("Access-Control-Allow-Methods", s.corsMethods),
          ("Access-Control-Allow-Headers", s.corsHeaders),
          ("Access-Control-Max-Age", "86400")] } := by
    unfold HttpServer.applyCORS
    rw [hc]
    rfl
  rw [hreq, hcors]
  refine ⟨rfl, rfl, ?_, ?_, ?_, ?_, ?_⟩
  · rfl
  · rfl
  · rfl
  · rfl
  · intro mws phs hhs nfh
    have hcond' : (HttpServer.corsEnabled
        { s with middlewares := mws, patternHandlers := phs,
                 httpHandlers := hhs, notFoundHandler := nfh }
        && (req.method == "OPTIONS")) = true := hcond
    have hreq' : HttpServer.handleRequest
        { s with middlewares := mws, patternHandlers := phs,
                 httpHandlers := hhs, notFoundHandler := nfh } req =
        HttpServer.applyCORS
          { s with middlewares := mws, patternHandlers := phs,
                   httpHandlers := hhs, notFoundHandler := nfh }
          (HubHttpResponse.setStatus {} 204) := by
      unfold HttpServer.handleRequest
      rw [hcond']
      simp
    have hcors' : HttpServer.applyCORS
        { s with middlewares := mws, patternHandlers := phs,
                 httpHandlers := hhs, notFoundHandler := nfh }
        (HubHttpResponse.setStatus {} 204) =
        { status := 204, body := "",
          headers := [("Access-Control-Allow-Origin", s.corsOrigin),
            ("Access-Control-Allow-Methods", s.corsMethods),
            ("Access-Control-Allow-Headers", s.corsHeaders),
            ("Access-Control-Max-Age", "86400")] } := by
      unfold HttpServer.applyCORS
      rw [show HttpServer.corsEnabled
        { s with middlewares := mws, patternHandlers := phs,
                 httpHandlers := hhs, notFoundHandler := nfh } = true from hc]
      rfl
    exact hreq'.trans hcors'

/-- Claim C2, amended — the 413 guarantee holds for the header-reading
phase: when the accumulated buffer would exceed the configured maximum
while the header parse is still incomplete (every examined prefix
parses as incomplete and the stream is longer than the maximum, with
reads delivering at least one byte each), `handleConnection` sends
exactly the 413 error response and signals the connection closed.  A
request whose headers complete before the maximum is reached is *not*
rejected even when its advertised body would push the total beyond the
maximum — the body is simply truncated to the bytes already read, so
an oversized-body request can be answered with a non-413 status. -/
theorem c2_amended_overflow_413 (s : HttpServer) (reads : List (List Byte))
    (hnil : reads ≠ [])
    (hne : ∀ c ∈ reads, c ≠ [])
    (hinc : ∀ k, k ≤ reads.length →
      phrParseRequest ((reads.take k).flatten) = .incomplete)
    (htot : s.maxRequestSize < reads.flatten.length) :
    s.handleConnection true reads =
      (some (s.generateErrorResponse 413 "Payload Too Large"), false) := by
  have hce : reads.isEmpty = false := by
    cases reads with
    | nil => exact absurd rfl hnil
    | cons c cs => rfl
  have hloop : parseLoop s.maxRequestSize reads [] DEFAULT_BUFFER_SIZE =
      .tooLarge := by
    apply parseLoop_overflow
    · exact hne
    · intro k hk
      simpa using hinc k hk
    · simpa using htot
  unfold HttpServer.handleConnection
  rw [hce, hloop]
  rfl

/-- Claim C4, amended — fragmentation invariance holds for everything
the header parse determines: if the loop completes on some fragmented
delivery of a stream (of total size within the configured maximum),
then single-read delivery of the whole stream also completes, with the
same parsed head — hence the same request method, path, query and
headers; only the body depends on the read boundaries, since it is cut
from exactly the bytes consumed before header completion. -/
theorem c4_amended_head_fragmentation_invariant (maxReq : Nat)
    (reads : List (List Byte)) (stream buf : List Byte) (cap : Nat)
    (ph : ParsedHead) (rest : List (List Byte))
    (hflat : reads.flatten = stream)
    (hlen : stream.length ≤ maxReq)
    (h : parseLoop maxReq reads [] DEFAULT_BUFFER_SIZE =
      .complete buf cap ph rest) :
    parseLoop maxReq [stream] [] DEFAULT_BUFFER_SIZE =
      .complete stream
        (if stream.length > DEFAULT_BUFFER_SIZE then stream.length
         else DEFAULT_BUFFER_SIZE) ph [] ∧
    ∀ b b' : List Byte,
      (buildRequest ph b).method = (buildRequest ph b').method ∧
      (buildRequest ph b).path = (buildRequest ph b').path ∧
      (buildRequest ph b).query = (buildRequest ph b').query ∧
      (buildRequest ph b).headers = (buildRequest ph b').headers := by
  rcases parseLoop_complete maxReq reads [] DEFAULT_BUFFER_SIZE buf cap ph rest h
    with ⟨⟨k, hk⟩, hp, hle, hpos⟩
  have hbufle : ∃ t, buf ++ t = stream := by
    refine ⟨(reads.drop k).flatten, ?_⟩
    rw [hk]
    simp only [List.nil_append]
    rw [← List.flatten_append, List.take_append_drop, hflat]
  rcases hbufle with ⟨t, ht⟩
  have hparseS : phrParseRequest stream = .complete ph := by
    rw [← ht]
    exact phrParseRequest_append buf t ph hp
  have hbufne : buf ≠ [] := by
    intro hb
    rw [hb] at hp
    unfold phrParseRequest at hp
    simp [findTerm] at hp
  have hsne : stream ≠ [] := by
    intro hs
    rcases ht with rfl
    rcases List.append_eq_nil.mp hs with ⟨h₁, _⟩
    exact hbufne h₁
  constructor
  · rw [parseLoop]
    simp only [List.length_nil, List.nil_append, ge_iff_le, Nat.le_zero,
      gt_iff_lt, Nat.add_zero, Nat.zero_add]
    rw [if_neg (show ¬ maxReq = 0 by omega)]
    rw [if_neg hsne]
    rw [if_neg (show ¬ maxReq < stream.length by omega)]
    rw [hparseS]
  · intro b b'
    exact ⟨rfl, rfl, rfl, rfl⟩

/-- Claim C10 — NUL-truncated body extraction.  The body is produced by
reading the zero-padded receive buffer at the header-end offset as a
NUL-terminated C string, so whenever the bytes after the header contain
a 0x00 byte the extracted body is the strict prefix before the first
0x00 — binary bodies are not preserved — and the `HttpRequest` is built
with exactly that truncated body. -/
theorem c10_body_nul_truncated (maxReq : Nat) (reads : List (List Byte))
    (buf : List Byte) (cap : Nat) (ph : ParsedHead) (rest : List (List Byte))
    (hp : parseLoop maxReq reads [] DEFAULT_BUFFER_SIZE =
      .complete buf cap ph rest)
    (hlt : ph.headerEnd < buf.length)
    (hnul : '\x00' ∈ buf.drop ph.headerEnd) :
    bodyOf buf cap ph.headerEnd =
      (buf.drop ph.headerEnd).takeWhile (fun c => !(c == '\x00')) ∧
    (bodyOf buf cap ph.headerEnd).length < (buf.drop ph.headerEnd).length ∧
    bodyOf buf cap ph.headerEnd ≠ buf.drop ph.headerEnd ∧
    (buildRequest ph (bodyOf buf cap ph.headerEnd)).body =
      String.mk ((buf.drop ph.headerEnd).takeWhile (fun c => !(c == '\x00'))) := by
  have hcap : buf.length ≤ cap :=
    parseLoop_cap maxReq reads [] DEFAULT_BUFFER_SIZE buf cap ph rest hp
      (by simp [DEFAULT_BUFFER_SIZE])
  have hbody : bodyOf buf cap ph.headerEnd =
      (buf.drop ph.headerEnd).takeWhile (fun c => !(c == '\x00')) := by
    unfold bodyOf
    rw [if_pos hlt]
    exact cStrFrom_eq_takeWhile buf cap ph.headerEnd (Nat.le_of_lt hlt)
  have hshort := takeWhile_ne_shorter (buf.drop ph.headerEnd) hnul
  refine ⟨hbody, by rw [hbody]; exact hshort, ?_, by rw [hbody]; rfl⟩
  intro heq
  rw [hbody] at heq
  have := congrArg List.length heq
  omega

-- ===========================================================================
-- Concrete scenarios
-- ===========================================================================

/-- Handler answering 200 `ok`, used by the concrete scenarios. -/
def okHandler : RouteHandler := fun _ => { status := 200, body := "ok", headers := [] }

/-- Short-circuit middleware that sets 401 and halts. -/
def authMiddleware : MiddlewareHandlerBool :=
  fun req res => (req, { res with status := 401, body := "Unauthorized" }, false)

/-- Server with one halting middleware and one `GET /a` pattern route. -/
def c1server : HttpServer :=
  (({} : HttpServer).use authMiddleware).onMethod "GET" "/a" okHandler

/-- Request `GET /a`. -/
def c1request : HttpRequest := { method := "GET", path := "/a" }

/-- Claim C1 — code-bug evidence.  The registered middleware halts after
setting status 401 (third conjunct: the middleware chain's own output is
the 401 response), yet the request pipeline still runs the router and
the `GET /a` handler, whose 200/`ok` response is what gets transmitted:
`applyMiddlewares` drops the halt signal, so halting neither skips the
router nor makes the halting stage's response final. -/
theorem c1_halt_does_not_skip_router :
    (c1server.handleRequest c1request).status = 200 ∧
    (c1server.handleRequest c1request).body = "ok" ∧
    applyMiddlewaresList c1server.middlewares c1request {} =
      (c1request, { status := 401, body := "Unauthorized", headers := [] }) :=
  ⟨rfl, rfl, rfl⟩

/-- Stream of a `POST /big` request advertising a 400-byte body (443
bytes in total). -/
def c2stream : List Byte :=
  "POST /big HTTP/1.1\r\nContent-Length: 400\r\n\r\n".toList ++
    List.replicate 400 'a'

/-- Server configured (via `begin(config)`) with a 300-byte maximum
request size. -/
def c2server : HttpServer :=
  ({} : HttpServer).beginConfig { maxRequestSize := 300 }

/-- Delivery of `c2stream` in a 300-byte read followed by the rest. -/
def c2reads : List (List Byte) := [c2stream.take 300, c2stream.drop 300]

/-- Claim C2 — counterexample.  The client's request (443 bytes) exceeds
the configured 300-byte maximum, yet the connection is answered with a
404 — not 413 — and kept open: the headers complete inside the first
read, the loop stops reading, and the truncated request is routed
normally.  Whether the oversized request draws a 413 depends on how the
bytes fragment across reads, contradicting the claimed guarantee. -/
theorem c2_oversized_body_served_not_413 :
    c2server.maxRequestSize = 300 ∧
    c2stream.length = 443 ∧
    (c2server.handleConnection true c2reads).2 = true ∧
    ((c2server.handleConnection true c2reads).1.map HubHttpResponse.status) =
      some 404 :=
  ⟨rfl, rfl, rfl, rfl⟩

/-- First read: a complete header section advertising 4 body bytes. -/
def c3headerRead : List Byte := "POST /x HTTP/1.1\r\nContent-Length: 4\r\n\r\n".toList

/-- Second read: the 4 advertised body bytes. -/
def c3bodyRead : List Byte := "abcd".toList

/-- Parsed head of `c3headerRead`. -/
def c3head : ParsedHead :=
  { headerEnd := 39, method := "POST", path := "/x",
    headers := [("Content-Length", "4")] }

/-- Claim C3 — code-bug evidence.  The headers complete in the first
read, so the loop stops with the second read (holding the advertised 4
body bytes) never consumed; the request is built with an empty body
although its `Content-Length` header says 4 — the parser does not
continue reading until the advertised body has arrived. -/
theorem c3_body_not_read_to_content_length :
    parseLoop 8192 [c3headerRead, c3bodyRead] [] DEFAULT_BUFFER_SIZE =
      .complete c3headerRead DEFAULT_BUFFER_SIZE c3head [c3bodyRead] ∧
    bodyOf c3headerRead DEFAULT_BUFFER_SIZE c3head.headerEnd = [] ∧
    (buildRequest c3head
      (bodyOf c3headerRead DEFAULT_BUFFER_SIZE c3head.headerEnd)).body = "" ∧
    (buildRequest c3head
      (bodyOf c3headerRead DEFAULT_BUFFER_SIZE c3head.headerEnd)).getHeader
        "Content-Length" = "4" :=
  ⟨rfl, rfl, rfl, rfl⟩

/-- The same request as one unfragmented stream. -/
def c4stream : List Byte := c3headerRead ++ c3bodyRead

/-- Claim C4 — counterexample.  Splitting the same well-formed 43-byte
request at the header/body boundary changes the parsed request: the
single-read delivery yields body `abcd`, the two-read delivery yields an
empty body, so fragmentation is not invariant. -/
theorem c4_fragmentation_changes_body :
    (match parseLoop 8192 [c3headerRead, c3bodyRead] [] DEFAULT_BUFFER_SIZE with
     | .complete buf cap ph _ =>
        (buildRequest ph (bodyOf buf cap ph.headerEnd)).body
     | _ => "FAIL") = "" ∧
    (match parseLoop 8192 [c4stream] [] DEFAULT_BUFFER_SIZE with
     | .complete buf cap ph _ =>
        (buildRequest ph (bodyOf buf cap ph.headerEnd)).body
     | _ => "FAIL") = "abcd" :=
  ⟨rfl, rfl⟩

/-- Bytes of a minimal `GET /` request. -/
def c6read : List Byte := "GET / HTTP/1.1\r\n\r\n".toList

/-- Claim C6 — counterexample.  On a default server (keep-alive
disabled) a request is served (status 200) and the response advertises
`Connection: close`, yet `handleConnection` returns `true`: the
connection is kept in the pool after the response instead of being
destroyed. -/
theorem c6_connection_kept_after_response :
    ({} : HttpServer).keepAlive = false ∧
    (({} : HttpServer).handleConnection true [c6read]).2 = true ∧
    ((({} : HttpServer).handleConnection true [c6read]).1.map
      (fun r => (r.status, getA r.headers "Connection"))) =
      some (200, some "close") :=
  ⟨rfl, rfl, rfl⟩

/-- Server whose inactivity timeout was configured to 1000 ms through
`setConnectionInactivityTimeout`. -/
def c7server : HttpServer := ({} : HttpServer).setConnectionInactivityTimeout 1000

/-- Connection with no activity since time 0 and no pending data. -/
def c7conn : HttpClientConnection :=
  { connectedFlag := true, lastActivityMillis := 0, reads := [] }

/-- Claim C7 — code-bug evidence.  The configured timeout is stored
(first conjunct) but never consulted: at time 2000 — double the
configured 1000 ms timeout — the tick keeps the idle connection, and it
does so for *every* configured value, because `isActive` compares
against the file-scope `CLIENT_INACTIVITY_TIMEOUT_MS` constant; only
after that constant (300000 ms) does a tick evict the connection. -/
theorem c7_configured_timeout_ignored :
    c7server.connectionInactivityTimeout = 1000 ∧
    c7server.tickKeeps true 2000 c7conn = true ∧
    (∀ t : Nat, (({} : HttpServer).setConnectionInactivityTimeout t).tickKeeps
      true 2000 c7conn = true) ∧
    ({} : HttpServer).tickKeeps true CLIENT_INACTIVITY_TIMEOUT_MS c7conn = false :=
  ⟨rfl, rfl, fun _ => rfl, rfl⟩

/-- Server with one pattern route `GET /api/:id/edit`. -/
def c9server : HttpServer :=
  ({} : HttpServer).onMethod "GET" "/api/:id/edit" okHandler

/-- Request `GET /api/42/delete`, matching the route's first two
segments but not its third. -/
def c9request : HttpRequest := { method := "GET", path := "/api/42/delete" }

/-- Claim C9 — counterexample.  The only registered pattern fails on its
final literal segment (`edit` vs `delete`), so no route matches and the
request falls through to the default 404 — yet the scan has already
written `params["id"] = "42"` into the request, so a non-matching scan
does not leave the params unchanged. -/
theorem c9_failed_scan_leaves_captures :
    ((c9server.routeStep c9request {}).1).params = [("id", "42")] ∧
    (c9server.routeStep c9request {}).2.status = 404 ∧
    c9request.params = [] :=
  ⟨rfl, rfl, rfl⟩

-- ===========================================================================
-- Witnesses
-- ===========================================================================

/-- Server configured (via `begin(config)`) with a 4-byte maximum. -/
def w2server : HttpServer := ({} : HttpServer).beginConfig { maxRequestSize := 4 }

/-- Two 3-byte reads of a stream that never completes a header. -/
def w2reads : List (List Byte) := [['a', 'b', 'c'], ['d', 'e', 'f']]

/-- Witness for the amended size-bound theorem at a concrete oversized
header stream. -/
theorem c2_amended_overflow_413_witness :
    w2server.handleConnection true w2reads =
      (some (w2server.generateErrorResponse 413 "Payload Too Large"), false) :=
  c2_amended_overflow_413 w2server w2reads (by decide) (by decide) (by decide)
    (by decide)

/-- Witness for the amended fragmentation theorem at the concrete split
request. -/
theorem c4_amended_witness :
    parseLoop 8192 [c4stream] [] DEFAULT_BUFFER_SIZE =
      .complete c4stream
        (if c4stream.length > DEFAULT_BUFFER_SIZE then c4stream.length
         else DEFAULT_BUFFER_SIZE) c3head [] ∧
    ∀ b b' : List Byte,
      (buildRequest c3head b).method = (buildRequest c3head b').method ∧
      (buildRequest c3head b).path = (buildRequest c3head b').path ∧
      (buildRequest c3head b).query = (buildRequest c3head b').query ∧
      (buildRequest c3head b).headers = (buildRequest c3head b').headers :=
  c4_amended_head_fragmentation_invariant 8192 [c3headerRead, c3bodyRead]
    c4stream c3headerRead DEFAULT_BUFFER_SIZE c3head [c3bodyRead]
    (by decide) (by decide) (by decide)

/-- Server with the pattern route `GET /api/user/:id` registered before
an exact route at `/api/user/42`. -/
def c5server : HttpServer :=
  (({} : HttpServer).onMethod "GET" "/api/user/:id" okHandler).on "/api/user/42"
    okHandler

/-- Request `GET /api/user/42`. -/
def c5request : HttpRequest := { method := "GET", path := "/api/user/42" }

/-- Witness for the route-resolution-order theorem at a request both a
pattern route and an exact route could serve. -/
theorem c5_route_resolution_order_witness :
    (c5server.routeStep c5request {}).2 =
      specResolve c5server ((c5server.routeStep c5request {}).1) c5request {} ∧
    (∀ rp, c5server.patternHandlers.find?
        (fun rp => specMatches rp c5request.method c5request.path) = some rp →
      ∃ ps₀, ((c5server.routeStep c5request {}).1).params =
        setMany ps₀ (capturesOf rp.segments (segsOf (stripSlash c5request.path)))) :=
  c5_route_resolution_order c5server c5request {} (by decide)

/-- Parsed head of `c6read`. -/
def c6head : ParsedHead :=
  { headerEnd := 18, method := "GET", path := "/", headers := [] }

/-- Witness for the amended keep-alive theorem at the concrete `GET /`
request on a default (keep-alive disabled) server. -/
theorem c6_amended_witness :
    (({} : HttpServer).handleConnection true [c6read]).2 = true ∧
    ∃ r, (({} : HttpServer).handleConnection true [c6read]).1 = some r ∧
      getA r.headers "Connection" = some "close" :=
  c6_amended_kept_with_close_header {} [c6read] c6read DEFAULT_BUFFER_SIZE c6head
    [] (by decide) (by decide) rfl rfl (by decide)

/-- Server with CORS enabled plus a middleware and an `OPTIONS /a`
route that must both be bypassed by preflight. -/
def c8server : HttpServer :=
  ((({} : HttpServer).enableCORS "*" "GET, POST, PUT, DELETE, OPTIONS"
    "Content-Type, Authorization").use authMiddleware).onMethod "OPTIONS" "/a"
    okHandler

/-- Request `OPTIONS /a`. -/
def c8request : HttpRequest := { method := "OPTIONS", path := "/a" }

/-- Witness for the CORS-preflight theorem at a concrete `OPTIONS`
request. -/
theorem c8_cors_preflight_witness :
    (c8server.handleRequest c8request).status = 204 ∧
    (c8server.handleRequest c8request).body = "" ∧
    getA (c8server.handleRequest c8request).headers
      "Access-Control-Allow-Origin" = some c8server.corsOrigin ∧
    getA (c8server.handleRequest c8request).headers
      "Access-Control-Allow-Methods" = some c8server.corsMethods ∧
    getA (c8server.handleRequest c8request).headers
      "Access-Control-Allow-Headers" = some c8server.corsHeaders ∧
    getA (c8server.handleRequest c8request).headers
      "Access-Control-Max-Age" = some "86400" ∧
    ∀ mws phs hhs nfh,
      HttpServer.handleRequest
        { c8server with middlewares := mws, patternHandlers := phs,
                        httpHandlers := hhs, notFoundHandler := nfh } c8request
        = c8server.handleRequest c8request :=
  c8_cors_preflight c8server c8request rfl rfl

/-- The pattern route of the C9 scenario as a `RoutePattern` value. -/
def c9route : RoutePattern := mkRoutePattern "GET" "/api/:id/edit" okHandler

/-- Witness for the amended params-origin theorem: the binding
`id ↦ 42` left by the failed scan is traced to the `:id` capture at
segment position 1 of the scanned route. -/
theorem c9_amended_witness :
    getA (matchPattern c9route "GET" "/api/42/delete" []).1 "id" = some "42" ∧
    (getA ([] : SMap) "id" = some "42" ∨
     (eqIgnoreCase c9route.method "GET" = true ∧
      (segsOf (stripSlash "/api/42/delete")).length = c9route.segments.length ∧
      ∃ i pseg aseg, c9route.segments.get? i = some pseg ∧
        (segsOf (stripSlash "/api/42/delete")).get? i = some aseg ∧
        isParamSeg pseg = true ∧ paramName pseg = "id" ∧ aseg = "42" ∧
        (∀ j pj aj, j < i → c9route.segments.get? j = some pj →
          (segsOf (stripSlash "/api/42/delete")).get? j = some aj →
          isParamSeg pj = false → pj = aj))) :=
  ⟨by decide, c9_amended_params_only_from_captures c9route "GET" "/api/42/delete"
    [] "id" "42" (by decide)⟩

/-- Stream of a `POST /x` request whose 6-byte body contains a NUL at
its third byte. -/
def c10read : List Byte :=
  "POST /x HTTP/1.1\r\nContent-Length: 6\r\n\r\nab".toList ++
    '\x00' :: "cde".toList

/-- Parsed head of `c10read`. -/
def c10head : ParsedHead :=
  { headerEnd := 39, method := "POST", path := "/x",
    headers := [("Content-Length", "6")] }

/-- Witness for the NUL-truncation theorem at the concrete binary-body
request. -/
theorem c10_body_nul_truncated_witness :
    bodyOf c10read DEFAULT_BUFFER_SIZE c10head.headerEnd =
      (c10read.drop c10head.headerEnd).takeWhile (fun c => !(c == '\x00')) ∧
    (bodyOf c10read DEFAULT_BUFFER_SIZE c10head.headerEnd).length <
      (c10read.drop c10head.headerEnd).length ∧
    bodyOf c10read DEFAULT_BUFFER_SIZE c10head.headerEnd ≠
      c10read.drop c10head.headerEnd ∧
    (buildRequest c10head
      (bodyOf c10read DEFAULT_BUFFER_SIZE c10head.headerEnd)).body =
      String.mk ((c10read.drop c10head.headerEnd).takeWhile
        (fun c => !(c == '\x00'))) :=
  c10_body_nul_truncated 8192 [c10read] c10read DEFAULT_BUFFER_SIZE c10head []
    (by decide) (by decide) (by decide)

end HubHttp
